import Mathlib

/-
  Shallow embedding of the quiver subsystem of crawl
  (src/crawl-ref/source/quiver.cc, namespace quiver).

  Conventions used throughout this development:
  * machine ints are modelled as Int (payloads, inventory slots) or Nat
    (indices); where the C code relies on bit packing we use the arithmetic
    characterisation (x << 16 is x * 2^16, a | b is a + b for disjoint
    operands, x & 0xffff is x % 2^16) and keep slot values below 2^16 so no
    overflow is possible;
  * external collaborators (item-prop, spell and ability databases,
    talent enumeration, lua hooks) are oracle fields of GameState: the
    embedding is parametric in them exactly as quiver.cc is parametric in
    the linked subsystems;
  * enum constants from headers that are not part of src/ are modelled as
    dedicated inductive constructors (object classes, missile and weapon
    subtypes) or as named Int constants used purely as opaque tokens.
-/

namespace Quiver

/-- Object base classes of item_def appearing in quiver.cc
    (OBJ_WEAPONS, OBJ_MISSILES, OBJ_WANDS, OBJ_MISCELLANY); `other`
    stands for every remaining class. -/
inductive ObjType where
  | weapons
  | missiles
  | wands
  | miscellany
  | other (n : Nat)
deriving DecidableEq

/-- Item subtypes tested by name in quiver.cc (missile kinds, launcher
    weapon kinds, misc evocable kinds, WAND_DIGGING); `other` stands for
    every remaining subtype. -/
inductive SubType where
  | stone
  | javelin
  | largeRock
  | throwingNet
  | boomerang
  | dart
  | slingBullet
  | ziggurat
  | phialOfFloods
  | lightningRod
  | phantomMirror
  | tinOfTremorstones
  | hornOfGeryon
  | boxOfBeasts
  | wandDigging
  | huntingSling
  | fustibalus
  | shortbow
  | longbow
  | handCrossbow
  | arbalest
  | tripleCrossbow
  | other (n : Nat)
deriving DecidableEq

/-- Result classification of is_launched (launch_retval in throw.h):
    FUMBLED, LAUNCHED, THROWN, BUGGY. -/
inductive LaunchRet where
  | fumbled
  | launched
  | thrown
  | buggy
deriving DecidableEq

/-- Ammo category tags of quiver::launcher (AMMO_THROW, AMMO_SLING,
    AMMO_BOW, AMMO_CROSSBOW). -/
inductive Launcher where
  | ammoThrow
  | ammoSling
  | ammoBow
  | ammoCrossbow
deriving DecidableEq

/-- An inventory item restricted to the fields quiver.cc reads.
    A slot whose item_def is not defined() is modelled as `none` in the
    inventory map, so every Item value is a defined item. -/
structure Item where
  base_type : ObjType
  sub_type : SubType
  inscription : List Char
  quantity : Nat
  link : Nat
  unrand_idx : Nat
  is_unrand_artefact : Bool
deriving DecidableEq

/-- The polymorphic action hierarchy of quiver.cc as a closed tagged
    union: the base class `action` (the empty quiver) plus the seven
    concrete kinds, each carrying its single integer payload
    (inventory slot, spell id or ability id). -/
inductive Action where
  | base
  | ammo (slot : Int)
  | fumble (slot : Int)
  | spell (s : Int)
  | ability (a : Int)
  | wand (slot : Int)
  | misc (slot : Int)
  | artefactEvoke (slot : Int)
deriving DecidableEq

/-- Discriminator corresponding to typeid comparison on the action
    hierarchy: each concrete class is its own dynamic type (in
    particular fumble_action is distinct from ammo_action). -/
def actionKind : Action → Nat
  | .base => 0
  | .ammo _ => 1
  | .fumble _ => 2
  | .spell _ => 3
  | .ability _ => 4
  | .wand _ => 5
  | .misc _ => 6
  | .artefactEvoke _ => 7

/-- Equality test of the action hierarchy. Modelled from the spec:
    the dispatching operator== lives in quiver.h (not under src/), and
    per the spec equality is by kind tag and payload only; the per-kind
    payload comparisons (`equals` overrides) are in quiver.cc. -/
def action_equals (a b : Action) : Bool :=
  match a, b with
  | .base, .base => true
  | .ammo s, .ammo t => decide (s = t)
  | .fumble s, .fumble t => decide (s = t)
  | .spell s, .spell t => decide (s = t)
  | .ability s, .ability t => decide (s = t)
  | .wand s, .wand t => decide (s = t)
  | .misc s, .misc t => decide (s = t)
  | .artefactEvoke s, .artefactEvoke t => decide (s = t)
  | _, _ => false

/-- The persisted record written by action::save and its overrides:
    a CrawlHashTable holding a "type" string and a "param" int, either
    of which may be absent (the base class writes no "param"). -/
structure SaveTable where
  type_tag : Option String
  param : Option Int
deriving DecidableEq

/-- Serialisation: action::save and the per-kind overrides
    (quiver.cc lines 1218-1263). The base class stores only the tag
    "action"; every concrete kind stores its tag and payload. -/
def action_save : Action → SaveTable
  | .base => ⟨some "action", none⟩
  | .ammo s => ⟨some "ammo_action", some s⟩
  | .fumble s => ⟨some "fumble_action", some s⟩
  | .spell s => ⟨some "spell_action", some s⟩
  | .ability s => ⟨some "ability_action", some s⟩
  | .wand s => ⟨some "wand_action", some s⟩
  | .misc s => ⟨some "misc_action", some s⟩
  | .artefactEvoke s => ⟨some "artefact_evoke_action", some s⟩

/-- Deserialisation: _load_action (quiver.cc lines 1265-1297).
    Missing keys yield the invalid empty-quiver ammo action with slot -1;
    an unknown tag yields the base action. -/
def load_action (src : SaveTable) : Action :=
  match src.type_tag, src.param with
  | some ty, some p =>
    if ty = "ammo_action" then .ammo p
    else if ty = "spell_action" then .spell p
    else if ty = "ability_action" then .ability p
    else if ty = "wand_action" then .wand p
    else if ty = "misc_action" then .misc p
    else if ty = "artefact_evoke_action" then .artefactEvoke p
    else if ty = "fumble_action" then .fumble p
    else .base
  | _, _ => .ammo (-1)

/-- Inventory size ENDOFPACK (52 slots, letters a-z and A-Z). -/
def ENDOFPACK : Nat := 52

/-- Sentinel spell id SPELL_NO_SPELL. The numeric value is an opaque
    token here (the spell_type enum lives outside src/); every semantic
    question about a spell id is answered by the GameState oracles. -/
def SPELL_NO_SPELL : Int := 0

/-- Sentinel ability id ABIL_NON_ABILITY, an opaque token as above. -/
def ABIL_NON_ABILITY : Int := 0

/-- Sentinel ability id NUM_ABILITIES, an opaque token as above. -/
def NUM_ABILITIES : Int := 10000

/-- Unrandart id UNRAND_DISPATER, an opaque token as above. -/
def UNRAND_DISPATER : Nat := 1

/-- Unrandart id UNRAND_OLGREB, an opaque token as above. -/
def UNRAND_OLGREB : Nat := 2

/-- Decoded fire_type bit mask: one flag per FIRE_ bit tested by
    _item_matches (the numeric bit layout lives outside src/, only
    membership of each bit is ever queried). -/
structure FireTypeFlags where
  launcher : Bool
  stone : Bool
  javelin : Bool
  rock : Bool
  net : Bool
  boomerang : Bool
  dart : Bool
  inscribed : Bool
deriving DecidableEq

/-- The mask (fire_type) 0xffff: every flag set. -/
def all_fire_types : FireTypeFlags :=
  ⟨true, true, true, true, true, true, true, true⟩

/-- Prefix test on character lists, used to model strstr. -/
def list_starts_with : List Char → List Char → Bool
  | [], _ => true
  | _ :: _, [] => false
  | p :: ps, c :: cs => decide (p = c) && list_starts_with ps cs

/-- Substring test on character lists: has_substring pat s models
    strstr(s, pat) != nullptr (and string::find != npos). -/
def has_substring (pat : List Char) : List Char → Bool
  | [] => decide (pat = [])
  | c :: rest => list_starts_with pat (c :: rest) || has_substring pat rest

/-- First index of a list element satisfying a predicate, used to model
    the first-match scans of quiver.cc. -/
def firstIdx (p : α → Bool) : List α → Option Nat
  | [] => none
  | x :: r => if p x then some 0 else (firstIdx p r).map (· + 1)

/-- First index of a given action in a fire order, comparing with
    operator== exactly as the scan in action::find_next does. -/
def lookupIdx (a : Action) : List Action → Option Nat
  | [] => none
  | b :: r => if b = a then some 0 else (lookupIdx a r).map (· + 1)

/-- First defined result of a function over a list, used to model loops
    that return the first acceptable candidate. -/
def pickFirst (f : α → Option β) : List α → Option β
  | [] => none
  | x :: r =>
    match f x with
    | some y => some y
    | none => pickFirst f r

/-- The game state quiver.cc reads: the player's inventory and equipped
    weapon, the relevant configuration options, and oracle fields for
    each external collaborator (item-prop classification, spell, ability
    and evocation databases, warning-inscription prompts). The embedding
    is parametric in the oracles exactly as quiver.cc is parametric in
    the linked subsystems. -/
structure GameState where
  /-- you.inv: slot index to defined item (none when not defined()). -/
  inv : Nat → Option Item
  /-- you.weapon(). -/
  weapon : Option Item
  /-- you.species == SP_FELID. -/
  felid : Bool
  /-- Options.auto_switch. -/
  auto_switch : Bool
  /-- you.equip[EQ_WEAPON], a slot index or -1. -/
  equip_weapon : Int
  /-- Options.fire_order, the configured ordered filter list. -/
  fire_order : List FireTypeFlags
  /-- Options.fire_items_start. -/
  fire_items_start : Nat
  /-- item.launched_by(launcher), from item-prop. -/
  launched_by : Item → Item → Bool
  /-- is_launched(&you, launcher, item), from throw.cc. -/
  is_launched : Option Item → Item → LaunchRet
  /-- fire_warn_if_impossible(true), from item-use. -/
  fire_warn_impossible : Bool
  /-- check_warning_inscriptions(item, OPER_FIRE). -/
  warn_inscription : Item → Bool
  /-- can_cast_spells(true). -/
  can_cast : Bool
  /-- spell_is_useless(s, true, false). -/
  spell_useless : Int → Bool
  /-- is_valid_spell(s). -/
  valid_spell : Int → Bool
  /-- you.has_spell(s). -/
  has_spell : Int → Bool
  /-- get_spell_by_letter(index_to_letter(i)) for i in 0..51. -/
  spell_by_letter : Nat → Int
  /-- fail_severity(s). -/
  fail_severity : Int → Nat
  /-- Options.fail_severity_to_quiver. -/
  fail_severity_to_quiver : Nat
  /-- spell_highlight_by_utility(s, COL_UNKNOWN) == COL_FORBIDDEN. -/
  spell_forbidden : Int → Bool
  /-- your_talents(false, true), each talent's ability id in order. -/
  talents : List Int
  /-- check_ability_possible(a, true). -/
  abil_possible : Int → Bool
  /-- Embeds _pseudoability (quiver.cc lines 724-761); kept as an oracle
      because the ability_type constants it compares against live
      outside src/. -/
  pseudoability : Int → Bool
  /-- evoke_check(slot, true). -/
  evoke_check : Int → Bool
  /-- get_unrand_entry(idx) exists with evoke_func or
      targeted_evoke_func. -/
  unrand_has_evoke : Nat → Bool
  /-- item_is_equipped(item). -/
  item_equipped : Item → Bool
  /-- enough_hp(n, true). -/
  enough_hp : Nat → Bool
  /-- enough_mp(n, true). -/
  enough_mp : Nat → Bool

/-- Ammo classification of the equipped weapon:
    _get_weapon_ammo_type (quiver.cc lines 45-67). -/
def get_weapon_ammo_type : Option Item → Launcher
  | none => .ammoThrow
  | some w =>
    if w.base_type = ObjType.weapons then
      match w.sub_type with
      | .huntingSling => .ammoSling
      | .fustibalus => .ammoSling
      | .shortbow => .ammoBow
      | .longbow => .ammoBow
      | .handCrossbow => .ammoCrossbow
      | .arbalest => .ammoCrossbow
      | .tripleCrossbow => .ammoCrossbow
      | _ => .ammoThrow
    else .ammoThrow

/-- Fire-type filter match: _item_matches (quiver.cc lines 2030-2062). -/
def item_matches (st : GameState) (item : Item) (types : FireTypeFlags)
    (launcher : Option Item) (manual : Bool) : Bool :=
  (types.inscribed
      && has_substring (if manual then ['+', 'F'] else ['+', 'f'])
           item.inscription)
  || (decide (item.base_type = ObjType.missiles)
      && ((types.stone && decide (item.sub_type = SubType.stone))
        || (types.javelin && decide (item.sub_type = SubType.javelin))
        || (types.rock && decide (item.sub_type = SubType.largeRock))
        || (types.net && decide (item.sub_type = SubType.throwingNet))
        || (types.boomerang && decide (item.sub_type = SubType.boomerang))
        || (types.dart && decide (item.sub_type = SubType.dart))
        || (types.launcher
            && match launcher with
               | some l => st.launched_by item l
               | none => false)))

/-- Auto-switch availability: _autoswitch_active
    (quiver.cc lines 183-188). -/
def autoswitch_active (st : GameState) : Bool :=
  st.auto_switch && (decide (st.equip_weapon = 0) || decide (st.equip_weapon = 1))

/-- Auto-switch ammo compatibility with the two designated weapon
    slots: _autoswitch_ammo_check (quiver.cc lines 190-198). -/
def autoswitch_ammo_check (st : GameState) (ammo : Item) : Bool :=
  (match st.inv 0 with
   | some w1 => item_matches st ammo all_fire_types (some w1) false
   | none => false)
  || (match st.inv 1 with
      | some w2 => item_matches st ammo all_fire_types (some w2) false
      | none => false)

/-- Candidacy and filter rank of one inventory slot for the ammo fire
    order: the loop body of _get_item_fire_order (quiver.cc lines
    243-284) for slot i, returning the index of the first matching
    filter in Options.fire_order when the slot is a candidate. -/
def fire_order_entry (st : GameState) (ignore_inscription : Bool)
    (launcher : Option Item) (manual : Bool) (i : Nat) : Option Nat :=
  match st.inv i with
  | none => none
  | some item =>
    if !manual
        && decide (get_weapon_ammo_type launcher ≠ Launcher.ammoThrow)
        && decide (st.is_launched launcher item = LaunchRet.thrown) then
      none
    else if !ignore_inscription
        && has_substring (if manual then ['=', 'F'] else ['=', 'f'])
             item.inscription then
      none
    else
      firstIdx (fun ft =>
          item_matches st item ft launcher manual
          || (match launcher with
              | some l =>
                autoswitch_active st
                  && (decide (l.link = 0) || decide (l.link = 1))
                  && autoswitch_ammo_check st item
              | none => false))
        st.fire_order

/-- Sorted item fire order: _get_item_fire_order (quiver.cc lines
    235-290). Each candidate slot is packed as rank * 2^16 + slot
    (the source writes (i_flags << 16) | (i_inv & 0xffff)), the packed
    values are sorted ascending, and the slot half is recovered with a
    mod-2^16 mask (the source writes order[i] &= 0xffff). -/
def get_item_fire_order (st : GameState) (ignore_inscription : Bool)
    (launcher : Option Item) (manual : Bool) : List Nat :=
  (List.insertionSort (· ≤ ·)
    (((List.range ENDOFPACK).drop
        (if ignore_inscription then 0 else st.fire_items_start)).filterMap
      (fun i =>
        (fire_order_entry st ignore_inscription launcher manual i).map
          (fun r => r * 65536 + i % 65536)))).map (fun x => x % 65536)

/-- Validity of an ammo action: ammo_action::is_valid
    (quiver.cc lines 343-365). -/
def ammo_valid (st : GameState) (slot : Int) : Bool :=
  if st.felid then false
  else if decide (slot < 0) || decide (slot ≥ (ENDOFPACK : Int)) then false
  else
    match st.inv slot.toNat with
    | none => false
    | some ammo =>
      if autoswitch_active st then autoswitch_ammo_check st ammo
      else item_matches st ammo all_fire_types st.weapon false

/-- Validity of a fumble action: fumble_action::is_valid
    (quiver.cc lines 498-515) — a defined slot that is specifically not
    a valid ammo action. -/
def fumble_valid (st : GameState) (slot : Int) : Bool :=
  if st.felid then false
  else if decide (slot < 0) || decide (slot ≥ (ENDOFPACK : Int)) then false
  else
    match st.inv slot.toNat with
    | none => false
    | some _ => !ammo_valid st slot

/-- Validity of a wand action: wand_action::is_valid
    (quiver.cc lines 922-930). -/
def wand_valid (st : GameState) (slot : Int) : Bool :=
  if decide (slot < 0) || decide (slot ≥ (ENDOFPACK : Int)) then false
  else
    match st.inv slot.toNat with
    | none => false
    | some wand => decide (wand.base_type = ObjType.wands)

/-- Validity of a misc action: misc_action::is_valid
    (quiver.cc lines 1028-1038). -/
def misc_valid (st : GameState) (slot : Int) : Bool :=
  if decide (slot < 0) || decide (slot ≥ (ENDOFPACK : Int)) then false
  else
    match st.inv slot.toNat with
    | none => false
    | some wand => decide (wand.base_type = ObjType.miscellany)

/-- Validity of an artefact evoke action:
    artefact_evoke_action::is_valid (quiver.cc lines 1117-1135). -/
def artefact_valid (st : GameState) (slot : Int) : Bool :=
  if decide (slot < 0) || decide (slot ≥ (ENDOFPACK : Int)) then false
  else
    match st.inv slot.toNat with
    | none => false
    | some item =>
      item.is_unrand_artefact && st.item_equipped item
        && st.unrand_has_evoke item.unrand_idx

/-- Structural validity, dispatched over the action hierarchy.
    The base action is valid (quiver.h default; visible in src/ through
    ActionSelectMenu::set_to_quiver, which installs the empty action via
    an is_valid gate). Spell: spell_action::is_valid (line 586);
    ability: ability_action::is_valid (lines 774-785). -/
def is_valid (st : GameState) : Action → Bool
  | .base => true
  | .ammo slot => ammo_valid st slot
  | .fumble slot => fumble_valid st slot
  | .spell s => st.valid_spell s && st.has_spell s
  | .ability a =>
    if decide (a = ABIL_NON_ABILITY) || decide (a = NUM_ABILITIES) then false
    else st.talents.contains a
  | .wand slot => wand_valid st slot
  | .misc slot => misc_valid st slot
  | .artefactEvoke slot => artefact_valid st slot

/-- Launcher compatibility of an ammo slot: ammo_action::launcher_check
    (quiver.cc lines 312-318). -/
def ammo_launcher_check (st : GameState) (slot : Int) : Bool :=
  if decide (slot < 0) then false
  else
    match st.inv slot.toNat with
    | none => false
    | some it => item_matches st it all_fire_types st.weapon false

/-- Inscription gate shared by the ammo/fumble is_enabled body
    (quiver.cc lines 331-340): a warning inscription on the ammo, and,
    when the weapon would launch it, on the weapon as well. -/
def ammo_inscription_ok (st : GameState) (slot : Int) : Bool :=
  match st.inv slot.toNat with
  | none => false
  | some ammo =>
    st.warn_inscription ammo
      && (match st.weapon with
          | none => true
          | some w =>
            decide (st.is_launched (some w) ammo ≠ LaunchRet.launched)
              || st.warn_inscription w)

/-- Cost-and-status check of an artefact evocation:
    artefact_evoke_action::artefact_evoke_check with quiet = true
    (quiver.cc lines 1141-1155). -/
def artefact_evoke_check (st : GameState) (slot : Int) : Bool :=
  artefact_valid st slot
    && (match st.inv slot.toNat with
        | none => false
        | some it =>
          if it.unrand_idx = UNRAND_DISPATER then
            st.enough_hp 14 && st.enough_mp 4
          else if it.unrand_idx = UNRAND_OLGREB then st.enough_mp 4
          else true)

/-- Enablement, dispatched over the action hierarchy: ammo
    (lines 320-341), fumble (inherits the ammo body with its own
    is_valid and a launcher_check that always passes, lines 493-496),
    spell (line 581), ability (lines 787-791), wand and misc
    (lines 917-920), artefact evoke (lines 1157-1160). The base default
    is modelled from the spec (quiver.h is not under src/): the empty
    action is never the subject of an enablement query in quiver.cc. -/
def is_enabled (st : GameState) : Action → Bool
  | .base => true
  | .ammo slot =>
    ammo_valid st slot && !st.fire_warn_impossible
      && ammo_launcher_check st slot && ammo_inscription_ok st slot
  | .fumble slot =>
    fumble_valid st slot && !st.fire_warn_impossible
      && ammo_inscription_ok st slot
  | .spell s => st.can_cast && !st.spell_useless s
  | .ability a =>
    (if decide (a = ABIL_NON_ABILITY) || decide (a = NUM_ABILITIES) then false
     else st.talents.contains a)
      && st.abil_possible a
  | .wand slot => st.evoke_check slot
  | .misc slot => st.evoke_check slot
  | .artefactEvoke slot => artefact_evoke_check st slot

/-- Ammo fire order as actions: ammo_action::get_fire_order
    (quiver.cc lines 462-476). -/
def ammo_fire_order (st : GameState) (allow_disabled : Bool) : List Action :=
  (get_item_fire_order st false st.weapon true).filterMap (fun i =>
    if is_valid st (.ammo i)
        && (allow_disabled || is_enabled st (.ammo i)) then
      some (Action.ammo i)
    else none)

/-- Spell fire order: spell_action::get_fire_order
    (quiver.cc lines 689-710), in letter order, excluding spells that
    are too failure-prone or forbidden. -/
def spell_fire_order (st : GameState) (allow_disabled : Bool) : List Action :=
  (List.range ENDOFPACK).filterMap (fun i =>
    if is_valid st (.spell (st.spell_by_letter i))
        && (allow_disabled || is_enabled st (.spell (st.spell_by_letter i)))
        && decide (st.fail_severity (st.spell_by_letter i)
             < st.fail_severity_to_quiver)
        && !st.spell_forbidden (st.spell_by_letter i) then
      some (Action.spell (st.spell_by_letter i))
    else none)

/-- Ability fire order: ability_action::get_fire_order
    (quiver.cc lines 878-894), in talent order, excluding
    pseudo-abilities. -/
def ability_fire_order (st : GameState) (allow_disabled : Bool) : List Action :=
  st.talents.filterMap (fun t =>
    if st.pseudoability t then none
    else if is_valid st (.ability t)
        && (allow_disabled || is_enabled st (.ability t)) then
      some (Action.ability t)
    else none)

/-- Wand fire order: wand_action::get_fire_order
    (quiver.cc lines 990-1007), in pack order, skipping digging. -/
def wand_fire_order (st : GameState) (allow_disabled : Bool) : List Action :=
  (List.range ENDOFPACK).filterMap (fun (i : Nat) =>
    if is_valid st (.wand i)
        && (allow_disabled || is_enabled st (.wand i))
        && (match st.inv i with
            | some it => decide (it.sub_type ≠ SubType.wandDigging)
            | none => false) then
      some (Action.wand i)
    else none)

/-- Misc fire order: misc_action::get_fire_order
    (quiver.cc lines 1089-1104), in pack order, skipping the ziggurat
    figurine. -/
def misc_fire_order (st : GameState) (allow_disabled : Bool) : List Action :=
  (List.range ENDOFPACK).filterMap (fun (i : Nat) =>
    if is_valid st (.misc i)
        && (allow_disabled || is_enabled st (.misc i))
        && (match st.inv i with
            | some it => decide (it.sub_type ≠ SubType.ziggurat)
            | none => false) then
      some (Action.misc i)
    else none)

/-- Artefact evoke fire order: artefact_evoke_action::get_fire_order
    (quiver.cc lines 1200-1214), in pack order. -/
def artefact_fire_order (st : GameState) (allow_disabled : Bool) : List Action :=
  (List.range ENDOFPACK).filterMap (fun i =>
    if is_valid st (.artefactEvoke i)
        && (allow_disabled || is_enabled st (.artefactEvoke i)) then
      some (Action.artefactEvoke i)
    else none)

/-- Fire order dispatch on the dynamic type of the receiving action.
    fumble_action inherits ammo_action::get_fire_order, whose elements
    are ammo actions; the base class returns the empty enumeration
    (quiver.h default, modelled from the spec). -/
def get_fire_order (st : GameState) (a : Action) (allow_disabled : Bool) :
    List Action :=
  match a with
  | .base => []
  | .ammo _ => ammo_fire_order st allow_disabled
  | .fumble _ => ammo_fire_order st allow_disabled
  | .spell _ => spell_fire_order st allow_disabled
  | .ability _ => ability_fire_order st allow_disabled
  | .wand _ => wand_fire_order st allow_disabled
  | .misc _ => misc_fire_order st allow_disabled
  | .artefactEvoke _ => artefact_fire_order st allow_disabled

/-- The fire order as traversed by action::find_next: reversed when the
    direction is negative (quiver.cc lines 113-114). -/
def fire_order_dir (st : GameState) (a : Action) (dir : Int)
    (allow_disabled : Bool) : List Action :=
  let o := get_fire_order st a allow_disabled
  if dir < 0 then o.reverse else o

/-- Successor search within one kind's fire order: action::find_next
    (quiver.cc lines 107-135). -/
def find_next (st : GameState) (a : Action) (dir : Int)
    (allow_disabled loop : Bool) : Option Action :=
  if (fire_order_dir st a dir allow_disabled).isEmpty then none
  else if is_valid st a = false then
    (fire_order_dir st a dir allow_disabled).get? 0
  else
    match lookupIdx a (fire_order_dir st a dir allow_disabled) with
    | none => (fire_order_dir st a dir allow_disabled).get? 0
    | some i =>
      if !loop
          && decide (i + 1 ≥ (fire_order_dir st a dir allow_disabled).length)
        then none
      else (fire_order_dir st a dir allow_disabled).get?
        ((i + 1) % (fire_order_dir st a dir allow_disabled).length)

/-- Payload slot query: get_item overrides for ammo (line 452) and
    wand-family (line 985) actions. The base default -1 (used by the
    spell and ability kinds) is modelled from the spec: it lives in
    quiver.h, which is not under src/. -/
def get_item : Action → Int
  | .base => -1
  | .ammo slot => slot
  | .fumble slot => slot
  | .spell _ => -1
  | .ability _ => -1
  | .wand slot => slot
  | .misc slot => slot
  | .artefactEvoke slot => slot

/-- The fixed cross-kind representative sequence built by
    _get_next_action_type (quiver.cc lines 1509-1515). -/
def base_action_types : List Action :=
  [.ammo (-1), .wand (-1), .misc (-1), .artefactEvoke (-1),
   .spell SPELL_NO_SPELL, .ability ABIL_NON_ABILITY]

/-- The representative sequence in traversal direction
    (quiver.cc lines 1517-1518). -/
def action_types (dir : Int) : List Action :=
  if dir < 0 then base_action_types.reverse else base_action_types

/-- Cross-kind successor search: _get_next_action_type
    (quiver.cc lines 1504-1567). The starting index is the position of
    the current action's dynamic type in the representative sequence
    (skipped past, since the same-kind search already failed); a null or
    unrecognised action starts at the head without skipping. The
    sequence is rotated and the first valid find_next result wins.
    Split into helper functions: gnat_start finds the representative
    index of the current action's dynamic type and whether to skip past
    it. -/
def gnat_start (a : Option Action) (ts : List Action) : Nat × Bool :=
  match a with
  | none => (0, false)
  | some a =>
    match firstIdx (fun rep => decide (actionKind rep = actionKind a)) ts with
    | some j => (j, true)
    | none => (0, false)

/-- Rotation offset of the representative sequence: the found type
    index, advanced past itself when found (quiver.cc lines
    1551-1553). -/
def gnat_index (a : Option Action) (ts : List Action) : Nat :=
  if (gnat_start a ts).2 then ((gnat_start a ts).1 + 1) % ts.length
  else (gnat_start a ts).1

/-- Candidate filter of the rotated scan (quiver.cc lines 1557-1562):
    the first valid find_next result of a representative wins. -/
def gnat_step (st : GameState) (dir : Int) (allow_disabled : Bool)
    (rep : Action) : Option Action :=
  match find_next st rep dir allow_disabled false with
  | some n => if is_valid st n then some n else none
  | none => none

def get_next_action_type (st : GameState) (a : Option Action) (dir : Int)
    (allow_disabled : Bool) : Option Action :=
  pickFirst (gnat_step st dir allow_disabled)
    ((action_types dir).drop (gnat_index a (action_types dir))
      ++ (action_types dir).take (gnat_index a (action_types dir)))

/-- Guaranteed-non-null successor: action_cycler::next
    (quiver.cc lines 1570-1583). First the same-kind successor, then a
    different kind, finally the invalid empty-quiver ammo fallback. -/
def next_action (st : GameState) (cur : Action) (dir : Int)
    (allow_disabled : Bool) : Action :=
  (match find_next st cur dir allow_disabled false with
   | some n =>
     if is_valid st n then some n
     else get_next_action_type st (some cur) dir allow_disabled
   | none => get_next_action_type st (some cur) dir allow_disabled).getD
    (.ammo (-1))

/-- Mutable state touched by the cycler operations: the owned current
    action, the two redraw flags (you.redraw_quiver, you.wield_change)
    and the ammo history table (you.m_quiver_history). -/
structure CyclerSt where
  current : Action
  redraw_quiver : Bool
  wield_change : Bool
  history : Launcher → Option Item

/-- History write: ammo_history::set_quiver
    (quiver.cc lines 1905-1910) — remember the item under its ammo
    category with quantity normalised to 1. -/
def ammo_history_set_quiver (h : Launcher → Option Item) (item : Item)
    (t : Launcher) : Launcher → Option Item :=
  Function.update h t (some { item with quantity := 1 })

/-- History notification: ammo_history::on_item_fired
    (quiver.cc lines 1913-1947). -/
def ammo_history_on_item_fired (st : GameState)
    (h : Launcher → Option Item) (item : Item) (explicitly_chosen : Bool) :
    Launcher → Option Item :=
  if !explicitly_chosen then h
  else
    match st.weapon with
    | some w =>
      if st.launched_by item w then
        Function.update h (get_weapon_ammo_type (some w))
          (some { item with quantity := 1 })
      else if st.is_launched st.weapon item = LaunchRet.fumbled then h
      else Function.update h Launcher.ammoThrow
        (some { item with quantity := 1 })
    | none =>
      if st.is_launched st.weapon item = LaunchRet.fumbled then h
      else Function.update h Launcher.ammoThrow
        (some { item with quantity := 1 })

/-- Value replacement: action_cycler::set (quiver.cc lines 1404-1433).
    A null argument is replaced by the base (empty) action; on an actual
    change the ammo history is updated from the new action's resolved
    item, and the redraw flag is set unconditionally. Returns the
    updated state and whether the value changed. -/
def action_cycler_set (st : GameState) (c : CyclerSt) (p : Option Action) :
    CyclerSt × Bool :=
  let n := p.getD Action.base
  let diff := !decide (n = c.current)
  let hist :=
    if diff then
      let islot := get_item n
      if decide (islot < 0) then c.history
      else
        match st.inv islot.toNat with
        | some item =>
          let t :=
            match st.weapon with
            | some w =>
              if st.launched_by item w then get_weapon_ammo_type (some w)
              else Launcher.ammoThrow
            | none => Launcher.ammoThrow
          ammo_history_set_quiver c.history item t
        | none => c.history
    else c.history
  ({ current := n, redraw_quiver := true, wield_change := c.wield_change,
     history := hist }, diff)

/-- Launcher compatibility of a slot with the equipped weapon:
    _is_currently_launched_ammo (quiver.cc lines 1435-1440). -/
def is_currently_launched_ammo (st : GameState) (slot : Int) : Bool :=
  match st.weapon with
  | none => false
  | some w =>
    decide (slot ≥ 0)
      && (match st.inv slot.toNat with
          | some it => st.launched_by it w
          | none => false)

/-- Guarded replacement of the launcher cycler:
    launcher_action_cycler::set (quiver.cc lines 1452-1462). An action
    whose payload is not currently launched ammo and which is not the
    base empty action is rejected: only the (overridden) needs-redraw
    flags are set and false is returned. The override of
    set_needs_redraw (lines 1464-1468) additionally sets
    you.wield_change, in the accepting branch as well via virtual
    dispatch from action_cycler::set. -/
def launcher_action_cycler_set (st : GameState) (c : CyclerSt)
    (a : Action) : CyclerSt × Bool :=
  if is_currently_launched_ammo st (get_item a) || decide (a = Action.base) then
    let r := action_cycler_set st c (some a)
    ({ r.1 with wield_change := true }, r.2)
  else
    ({ c with redraw_quiver := true, wield_change := true }, false)

/-- Launcher cycler set as invoked through a possibly-null pointer:
    the source dereferences new_act (new_act->get_item()) before any
    null check, so a null argument has no defined result; a non-null
    argument behaves as launcher_action_cycler_set. -/
def launcher_set_checked (st : GameState) (c : CyclerSt) :
    Option Action → Option (CyclerSt × Bool)
  | none => none
  | some a => some (launcher_action_cycler_set st c a)

/-- Cycling: action_cycler::cycle (quiver.cc lines 1585-1588),
    set applied to the guaranteed successor. -/
def action_cycler_cycle (st : GameState) (c : CyclerSt) (dir : Int)
    (allow_disabled : Bool) : CyclerSt × Bool :=
  action_cycler_set st c (some (next_action st c.current dir allow_disabled))

/-- Commands fed back from one do_target resolution step through
    dist::cmd_result (quiver.cc lines 1804-1823): the three special
    cycling/menu commands, the fire command, and CMD_NO_CMD (which the
    loop's default case also maps every unknown command to). -/
inductive CmdResult where
  | noCmd
  | fire
  | cycleQuiverForward
  | cycleQuiverBackward
  | selectAction
deriving DecidableEq

/-- Environment input for one iteration of the interactive targeting
    loop: the command resolved by do_target, the external game state
    after the triggered action's side effects, and the action picked in
    the selection menu (if the command opens it and a pick is made). -/
structure TargetEvent where
  cmd : CmdResult
  post : GameState
  chosen : Option Action

/-- Exit data of the targeting loop body: game state, cycler state,
    the final what_happened command and the force_restore_initial flag
    of the last iteration. -/
structure TargetExit where
  finalSt : GameState
  cy : CyclerSt
  what : CmdResult
  forceRestore : Bool

/-- Iteration of the interactive targeting loop: the do-while body of
    action_cycler::target (quiver.cc lines 1787-1828) driven by a list
    of environment events. do_target (lines 137-168) returns null
    exactly when the current action is invalid, which exits the loop
    with CMD_NO_CMD and force_restore_initial set, consuming no input;
    otherwise the current action is triggered (the event supplies the
    post-trigger game state and the resolved command), the three special
    commands mutate the cycler (cycle with allow_disabled = false, or a
    menu selection installed through set_to_quiver's validity gate,
    lines 1668-1680), and CMD_FIRE / CMD_NO_CMD terminate. Returns none
    when the event list is exhausted before the loop exits. -/
def target_loop : GameState → CyclerSt → List TargetEvent →
    Option TargetExit
  | st, c, [] =>
    if is_valid st c.current = false then
      some ⟨st, c, .noCmd, true⟩
    else none
  | st, c, e :: rest =>
    if is_valid st c.current = false then
      some ⟨st, c, .noCmd, true⟩
    else
        let st2 := e.post
        let force := !is_valid st2 c.current
        let c2 :=
          match e.cmd with
          | .cycleQuiverForward => (action_cycler_cycle st2 c 1 false).1
          | .cycleQuiverBackward => (action_cycler_cycle st2 c (-1) false).1
          | .selectAction =>
            match e.chosen with
            | some s =>
              if is_valid st2 s && !decide (s = Action.base) then
                (action_cycler_set st2 c (some s)).1
              else c
            | none => c
          | _ => c
        if e.cmd = CmdResult.noCmd ∨ e.cmd = CmdResult.fire then
          some ⟨st2, c2, e.cmd, force⟩
        else target_loop st2 c2 rest

/-- The full interactive targeting entry point: action_cycler::target
    (quiver.cc lines 1759-1837). After the loop, the initial action is
    reinstalled when the loop ended in cancellation or the resolved
    action became invalid — but only when that initial action is still
    valid in the post-loop game state (lines 1830-1836). -/
def action_cycler_target (st : GameState) (c : CyclerSt)
    (evs : List TargetEvent) : Option CyclerSt :=
  (target_loop st c evs).map (fun out =>
    if (out.what = CmdResult.noCmd ∨ out.forceRestore = true)
        ∧ is_valid out.finalSt c.current = true then
      (action_cycler_set out.finalSt out.cy (some c.current)).1
    else out.cy)

/-- Iterated same-kind successor with loop = true in the forward
    direction, for the cycle-period property. -/
def find_next_iter (st : GameState) (allow_disabled : Bool) :
    Nat → Action → Option Action
  | 0, a => some a
  | n + 1, a =>
    match find_next st a 1 allow_disabled true with
    | some b => find_next_iter st allow_disabled n b
    | none => none

/-- Specification-side ordering key for the ammo fire order, following
    the claim's words: candidates are ordered by the pair (index of the
    first matching filter in Options.fire_order, inventory slot index),
    lexicographically ascending. -/
def lexLe (p q : Nat × Nat) : Prop :=
  p.1 < q.1 ∨ (p.1 = q.1 ∧ p.2 ≤ q.2)

instance : DecidableRel lexLe := fun _ _ =>
  inferInstanceAs (Decidable (_ ∨ _))

instance : IsTotal (Nat × Nat) lexLe :=
  ⟨fun _ _ => by unfold lexLe; omega⟩

instance : IsTrans (Nat × Nat) lexLe :=
  ⟨fun _ _ _ hpq hqr => by unfold lexLe at *; omega⟩

/-- Specification-side candidate list for the ammo fire order: the same
    candidate scan as _get_item_fire_order, but recorded as explicit
    (filter rank, slot) pairs instead of packed integers. -/
def fire_order_pairs (st : GameState) (ignore_inscription : Bool)
    (launcher : Option Item) (manual : Bool) : List (Nat × Nat) :=
  let inv_start := if ignore_inscription then 0 else st.fire_items_start
  ((List.range ENDOFPACK).drop inv_start).filterMap (fun i =>
    (fire_order_entry st ignore_inscription launcher manual i).map
      (fun r => (r, i)))

/-- Packed sort key of one ammo fire order candidate, the arithmetic
    reading of (i_flags << 16) | (i_inv & 0xffff). -/
def pack_rank_slot (p : Nat × Nat) : Nat :=
  p.1 * 65536 + p.2 % 65536

/-- Raw cycler for the nullability invariant: the current action as the
    source stores it, a possibly-null owning pointer. -/
structure RawCycler where
  current : Option Action

/-- Constructor state: action_cycler::action_cycler (quiver.cc line
    1377) installs an invalid ammo action with slot -1. -/
def raw_init : RawCycler := ⟨some (Action.ammo (-1))⟩

/-- Operations that write the cycler's current pointer, each carrying
    the game state it runs against. -/
inductive CyOp where
  | opSet (st : GameState) (p : Option Action)
  | opCycle (st : GameState) (dir : Int) (allow_disabled : Bool)
  | opClear (st : GameState)

/-- One raw cycler step: set stores the argument or, when null, the
    base action (quiver.cc line 1406); cycle stores the non-null result
    of next (lines 1585-1588); clear stores the base action (lines
    1646-1649). The cycle case with a null current models the ASSERT in
    get() (line 1487): it is unreachable from the initial state. -/
def raw_apply (c : RawCycler) : CyOp → RawCycler
  | .opSet _ p => ⟨some (p.getD Action.base)⟩
  | .opCycle st dir ad =>
    match c.current with
    | some cur => ⟨some (next_action st cur dir ad)⟩
    | none => c
  | .opClear _ => ⟨some Action.base⟩

/-- Folded raw cycler operation sequences. -/
def raw_apply_ops (c : RawCycler) (ops : List CyOp) : RawCycler :=
  ops.foldl raw_apply c

/-- Operations on the ammo history table, each with its game state. -/
inductive HistOp where
  | opSetQuiver (item : Item) (t : Launcher)
  | opFired (st : GameState) (item : Item) (explicitly_chosen : Bool)

/-- One ammo history step. -/
def hist_apply (h : Launcher → Option Item) : HistOp →
    (Launcher → Option Item)
  | .opSetQuiver item t => ammo_history_set_quiver h item t
  | .opFired st item ex => ammo_history_on_item_fired st h item ex

/-- Folded ammo history operation sequences, from the default-initial
    (all-undefined) table. -/
def hist_apply_ops (ops : List HistOp) : Launcher → Option Item :=
  ops.foldl hist_apply (fun _ => none)

/-- A benign concrete game state for witnesses: empty inventory, no
    weapon, default options, all oracles inert. -/
def defaultState : GameState where
  inv := fun _ => none
  weapon := none
  felid := false
  auto_switch := false
  equip_weapon := -1
  fire_order := [all_fire_types]
  fire_items_start := 0
  launched_by := fun _ _ => false
  is_launched := fun _ _ => .thrown
  fire_warn_impossible := false
  warn_inscription := fun _ => true
  can_cast := true
  spell_useless := fun _ => false
  valid_spell := fun _ => false
  has_spell := fun _ => false
  spell_by_letter := fun _ => 0
  fail_severity := fun _ => 0
  fail_severity_to_quiver := 4
  spell_forbidden := fun _ => false
  talents := []
  abil_possible := fun _ => true
  pseudoability := fun _ => false
  evoke_check := fun _ => true
  unrand_has_evoke := fun _ => false
  item_equipped := fun _ => false
  enough_hp := fun _ => true
  enough_mp := fun _ => true

/-- A stack of stones sitting in inventory slot l. -/
def mkStone (l : Nat) : Item :=
  ⟨ObjType.missiles, SubType.stone, [], 10, l, 0, false⟩

/-- Witness state: stone stacks in slots 3 and 5, nothing wielded. -/
def twoStonesSt : GameState :=
  { defaultState with
    inv := fun n => if n = 3 ∨ n = 5 then some (mkStone n) else none }

/-- Counterexample state for the targeting loop, before the trigger:
    stone stacks in slots 0 and 1. -/
def cexSt0 : GameState :=
  { defaultState with
    inv := fun n => if n = 0 ∨ n = 1 then some (mkStone n) else none }

/-- Counterexample state for the targeting loop, after the trigger
    consumed the stack in slot 0. -/
def cexSt1 : GameState :=
  { defaultState with
    inv := fun n => if n = 1 then some (mkStone 1) else none }

/-- A concrete cycler state currently holding the ammo action at
    slot 0. -/
def cycSlot0 : CyclerSt := ⟨Action.ammo 0, false, false, fun _ => none⟩

/-- A concrete cycler state currently holding the ammo action at
    slot 3. -/
def cycSlot3 : CyclerSt := ⟨Action.ammo 3, false, false, fun _ => none⟩

/-- The event trace of the restore-on-cancel counterexample: one
    cycle-forward step whose trigger empties slot 0, then a cancel. -/
def cexEvents : List TargetEvent :=
  [⟨CmdResult.cycleQuiverForward, cexSt1, none⟩,
   ⟨CmdResult.noCmd, cexSt1, none⟩]

/-- A ziggurat figurine: a valid misc action payload that every fire
    order skips. -/
def zigItem : Item :=
  ⟨ObjType.miscellany, SubType.ziggurat, [], 1, 0, 0, false⟩

/-- Counterexample state for the cycling fallback: the only item is a
    ziggurat figurine in slot 0, so a valid action exists but every
    fire order is empty. -/
def zigSt : GameState :=
  { defaultState with inv := fun n => if n = 0 then some zigItem else none }

/-- A shortbow. -/
def bowItem : Item :=
  ⟨ObjType.weapons, SubType.shortbow, [], 1, 0, 0, false⟩

/-- A stack of arrows in inventory slot l. -/
def mkArrow (l : Nat) : Item :=
  ⟨ObjType.missiles, SubType.other 7, [], 20, l, 0, false⟩

/-- Scenario state for the fire order: a wielded shortbow, arrow stacks
    in slots 3 and 5, a single launcher-ammo filter first in the
    configured fire order, no exclusion inscriptions. -/
def bowSt : GameState :=
  { defaultState with
    weapon := some bowItem
    inv := fun n => if n = 3 ∨ n = 5 then some (mkArrow n) else none
    launched_by := fun it w =>
      decide (it.base_type = ObjType.missiles)
        && decide (w.sub_type = SubType.shortbow)
    fire_order := [⟨true, false, false, false, false, false, false, false⟩] }

end Quiver

namespace Quiver

/-- Round trip and equality laws for actions (claim C1): every concrete
    action survives save followed by load up to `action_equals`, and
    `action_equals` is reflexive and symmetric. Validity of the payload
    plays no role: neither save, load nor equals consults any game
    state. -/
theorem save_load_roundtrip_equals (a : Action) :
    (a ≠ Action.base → action_equals (load_action (action_save a)) a = true)
    ∧ action_equals a a = true
    ∧ ∀ b : Action, action_equals a b = action_equals b a := by
  refine ⟨?_, ?_, ?_⟩
  · intro h
    cases a <;> simp_all [action_save, load_action, action_equals]
  · cases a <;> simp [action_equals]
  · intro b
    cases a <;> cases b <;> simp [action_equals, eq_comm]

/-- Witness for the round-trip law at a concrete input: an ability
    action with a payload that need not resolve to any ability. -/
theorem save_load_roundtrip_equals_witness :
    (Action.ability 137 ≠ Action.base)
    ∧ action_equals (load_action (action_save (Action.ability 137)))
        (Action.ability 137) = true :=
  ⟨by decide, (save_load_roundtrip_equals (Action.ability 137)).1 (by decide)⟩

/-- Rejection behaviour of the launcher cycler (claim C3): whenever the
    argument is neither the base empty action nor an action whose
    payload slot holds ammo currently launched by the equipped weapon,
    set returns false, the current action (and the history) is
    preserved unchanged, and only the needs-redraw flags are set (the
    launcher override of set_needs_redraw sets you.redraw_quiver and
    you.wield_change). -/
theorem launcher_set_rejects_nonlaunchable (st : GameState) (c : CyclerSt)
    (a : Action)
    (h : ¬(is_currently_launched_ammo st (get_item a) = true
           ∨ a = Action.base)) :
    launcher_action_cycler_set st c a
      = ({ c with redraw_quiver := true, wield_change := true }, false) := by
  have hcond : ¬((is_currently_launched_ammo st (get_item a)
      || decide (a = Action.base)) = true) := by
    simp only [Bool.or_eq_true, decide_eq_true_eq]
    exact h
  simp [launcher_action_cycler_set, hcond]

/-- Witness for the launcher rejection at a concrete input: a spell
    action offered to the launcher cycler with no weapon equipped. -/
theorem launcher_set_rejects_nonlaunchable_witness :
    (¬(is_currently_launched_ammo defaultState (get_item (Action.spell 3))
          = true
       ∨ Action.spell 3 = Action.base))
    ∧ launcher_action_cycler_set defaultState cycSlot0 (Action.spell 3)
      = ({ cycSlot0 with redraw_quiver := true, wield_change := true },
         false) :=
  ⟨by decide, launcher_set_rejects_nonlaunchable _ _ _ (by decide)⟩

/-- Unsafe null handling of the launcher cycler (claim C10): the source
    dereferences its argument before any null check, so only non-null
    arguments have a defined result; under the non-null precondition
    the embedding is total. In contrast action_cycler::set accepts a
    null pointer and substitutes the base empty action. -/
theorem launcher_set_requires_nonnull (st : GameState) (c : CyclerSt)
    (p : Option Action) (h : p.isSome = true) :
    (launcher_set_checked st c p).isSome = true
    ∧ launcher_set_checked st c none = none
    ∧ (action_cycler_set st c none).1.current = Action.base := by
  refine ⟨?_, rfl, rfl⟩
  cases p with
  | none => cases h
  | some a => rfl

/-- Witness for the null handling at a concrete non-null input. -/
theorem launcher_set_requires_nonnull_witness :
    ((some (Action.ammo 0) : Option Action).isSome = true)
    ∧ (launcher_set_checked defaultState cycSlot0
        (some (Action.ammo 0))).isSome = true :=
  ⟨rfl,
   (launcher_set_requires_nonnull defaultState cycSlot0
      (some (Action.ammo 0)) rfl).1⟩

/-- One history operation either leaves an entry alone or overwrites it
    with a quantity-1 copy of the operation's item; it never clears an
    entry. -/
theorem hist_apply_cases (h : Launcher → Option Item) (op : HistOp)
    (u : Launcher) :
    hist_apply h op u = h u
    ∨ ∃ it : Item, hist_apply h op u = some { it with quantity := 1 } := by
  cases op with
  | opSetQuiver item t =>
    by_cases hu : u = t
    · subst hu
      exact Or.inr ⟨item, by simp [hist_apply, ammo_history_set_quiver]⟩
    · exact Or.inl (by simp [hist_apply, ammo_history_set_quiver,
        Function.update_apply, hu])
  | opFired st item ex =>
    cases ex with
    | false => exact Or.inl rfl
    | true =>
      simp only [hist_apply, ammo_history_on_item_fired, Bool.not_true,
        Bool.false_eq_true, if_false]
      cases hw : st.weapon with
      | none =>
        by_cases hf : st.is_launched none item = LaunchRet.fumbled
        · simp [hf]
        · simp only [hf, if_false]
          by_cases hu : u = Launcher.ammoThrow
          · subst hu; exact Or.inr ⟨item, by simp⟩
          · exact Or.inl (by simp [Function.update_apply, hu])
      | some w =>
        by_cases hl : st.launched_by item w = true
        · simp only [hl, if_true]
          by_cases hu : u = get_weapon_ammo_type (some w)
          · subst hu; exact Or.inr ⟨item, by simp⟩
          · exact Or.inl (by simp [Function.update_apply, hu])
        · simp only [Bool.not_eq_true] at hl
          simp only [hl, Bool.false_eq_true, if_false]
          by_cases hf : st.is_launched (some w) item = LaunchRet.fumbled
          · simp [hf]
          · simp only [hf, if_false]
            by_cases hu : u = Launcher.ammoThrow
            · subst hu; exact Or.inr ⟨item, by simp⟩
            · exact Or.inl (by simp [Function.update_apply, hu])

/-- Quantity normalisation and no-removal invariant of the ammo history
    (claim C8): after any sequence of set_quiver / on_item_fired calls
    every entry is either still the initial undefined record or has
    quantity exactly 1, and each single operation only ever preserves or
    overwrites an entry (with a quantity-1 record), never removes one. -/
theorem ammo_history_quantity_one :
    (∀ (ops : List HistOp) (t : Launcher),
        hist_apply_ops ops t = none
        ∨ Option.map Item.quantity (hist_apply_ops ops t) = some 1)
    ∧ (∀ (h : Launcher → Option Item) (op : HistOp) (u : Launcher),
        hist_apply h op u = h u
        ∨ ∃ it : Item, hist_apply h op u = some { it with quantity := 1 }) := by
  refine ⟨?_, hist_apply_cases⟩
  have key : ∀ (ops : List HistOp) (h : Launcher → Option Item),
      (∀ t, h t = none ∨ Option.map Item.quantity (h t) = some 1) →
      ∀ t, (ops.foldl hist_apply h) t = none
        ∨ Option.map Item.quantity ((ops.foldl hist_apply h) t) = some 1 := by
    intro ops
    induction ops with
    | nil => intro h hh t; exact hh t
    | cons op rest ih =>
      intro h hh t
      rw [List.foldl_cons]
      refine ih _ ?_ t
      intro u
      rcases hist_apply_cases h op u with heq | ⟨it, heq⟩
      · rw [heq]; exact hh u
      · rw [heq]; exact Or.inr rfl
  intro ops t
  exact key ops (fun _ => none) (fun _ => Or.inl rfl) t

/-- Non-null current invariant of the action cycler (claim C9): the
    constructor installs the invalid ammo action with slot -1, every
    reachable state under set / cycle / clear keeps a non-null current
    action (so get() always yields an action), and set with a null
    argument stores the base empty action. -/
theorem current_never_null :
    raw_init.current = some (Action.ammo (-1))
    ∧ (∀ ops : List CyOp, (raw_apply_ops raw_init ops).current.isSome = true)
    ∧ (∀ (c : RawCycler) (st : GameState),
        (raw_apply c (CyOp.opSet st none)).current = some Action.base) := by
  refine ⟨rfl, ?_, fun c st => rfl⟩
  have key : ∀ (ops : List CyOp) (c : RawCycler), c.current.isSome = true →
      (raw_apply_ops c ops).current.isSome = true := by
    intro ops
    induction ops with
    | nil => intro c h; exact h
    | cons op rest ih =>
      intro c h
      rw [raw_apply_ops, List.foldl_cons]
      refine ih _ ?_
      cases op with
      | opSet st p => rfl
      | opCycle st dir ad =>
        cases hc : c.current with
        | none => rw [hc] at h; cases h
        | some cur => simp [raw_apply, hc]
      | opClear st => rfl
  intro ops
  exact key ops raw_init rfl

/-- The index scan of find_next yields none exactly when the sought
    action is absent from the order. -/
theorem lookupIdx_eq_none_iff (a : Action) (l : List Action) :
    lookupIdx a l = none ↔ a ∉ l := by
  induction l with
  | nil => simp [lookupIdx]
  | cons b r ih =>
    by_cases hb : b = a
    · subst hb; simp [lookupIdx]
    · simp [lookupIdx, hb, Option.map_eq_none', ih, Ne.symm hb]

/-- A successful index scan implies membership. -/
theorem mem_of_lookupIdx (a : Action) (l : List Action) (i : Nat)
    (h : lookupIdx a l = some i) : a ∈ l := by
  by_contra hna
  rw [(lookupIdx_eq_none_iff a l).mpr hna] at h
  cases h

/-- On a duplicate-free order the index scan recovers positions. -/
theorem lookupIdx_get_of_nodup (b : Action) (l : List Action)
    (hnd : l.Nodup) (i : Nat) (h : l.get? i = some b) :
    lookupIdx b l = some i := by
  induction l generalizing i with
  | nil => simp at h
  | cons x r ih =>
    cases i with
    | zero =>
      rw [List.get?_cons_zero] at h
      cases h
      simp [lookupIdx]
    | succ j =>
      rw [List.get?_cons_succ] at h
      have hx : ¬(x = b) := by
        intro he
        subst he
        exact (List.nodup_cons.mp hnd).1 (List.get?_mem h)
      simp [lookupIdx, hx, ih (List.nodup_cons.mp hnd).2 j h]

/-- Elements of the ammo fire order are ammo actions. -/
theorem mem_ammo_fire_order_shape (st : GameState) (ad : Bool) (b : Action)
    (h : b ∈ ammo_fire_order st ad) : ∃ i : Int, b = Action.ammo i := by
  obtain ⟨i, -, hf⟩ := List.mem_filterMap.mp h
  split at hf
  · cases hf; exact ⟨i, rfl⟩
  · cases hf

/-- Elements of the spell fire order are spell actions. -/
theorem mem_spell_fire_order_shape (st : GameState) (ad : Bool) (b : Action)
    (h : b ∈ spell_fire_order st ad) : ∃ s : Int, b = Action.spell s := by
  obtain ⟨i, -, hf⟩ := List.mem_filterMap.mp h
  split at hf
  · cases hf; exact ⟨_, rfl⟩
  · cases hf

/-- Elements of the ability fire order are ability actions. -/
theorem mem_ability_fire_order_shape (st : GameState) (ad : Bool)
    (b : Action) (h : b ∈ ability_fire_order st ad) :
    ∃ t : Int, b = Action.ability t := by
  obtain ⟨t, -, hf⟩ := List.mem_filterMap.mp h
  split at hf
  · cases hf
  · split at hf
    · cases hf; exact ⟨t, rfl⟩
    · cases hf

/-- Elements of the wand fire order are wand actions. -/
theorem mem_wand_fire_order_shape (st : GameState) (ad : Bool) (b : Action)
    (h : b ∈ wand_fire_order st ad) : ∃ i : Int, b = Action.wand i := by
  obtain ⟨i, -, hf⟩ := List.mem_filterMap.mp h
  split at hf
  · cases hf; exact ⟨i, rfl⟩
  · cases hf

/-- Elements of the misc fire order are misc actions. -/
theorem mem_misc_fire_order_shape (st : GameState) (ad : Bool) (b : Action)
    (h : b ∈ misc_fire_order st ad) : ∃ i : Int, b = Action.misc i := by
  obtain ⟨i, -, hf⟩ := List.mem_filterMap.mp h
  split at hf
  · cases hf; exact ⟨i, rfl⟩
  · cases hf

/-- Elements of the artefact fire order are artefact evoke actions. -/
theorem mem_artefact_fire_order_shape (st : GameState) (ad : Bool)
    (b : Action) (h : b ∈ artefact_fire_order st ad) :
    ∃ i : Int, b = Action.artefactEvoke i := by
  obtain ⟨i, -, hf⟩ := List.mem_filterMap.mp h
  split at hf
  · cases hf; exact ⟨i, rfl⟩
  · cases hf

/-- Every element of a fire order is structurally valid: each
    get_fire_order override pushes an action only after checking
    is_valid. -/
theorem valid_of_mem_fire_order (st : GameState) (ad : Bool) (a b : Action)
    (h : b ∈ get_fire_order st a ad) : is_valid st b = true := by
  have core_ammo : b ∈ ammo_fire_order st ad → is_valid st b = true := by
    intro hm
    obtain ⟨i, -, hf⟩ := List.mem_filterMap.mp hm
    split at hf
    · cases hf
      rename_i hc
      simp only [Bool.and_eq_true] at hc
      exact hc.1
    · cases hf
  cases a with
  | base => simp [get_fire_order] at h
  | ammo s => exact core_ammo h
  | fumble s => exact core_ammo h
  | spell s =>
    obtain ⟨i, -, hf⟩ :=
      List.mem_filterMap.mp (show b ∈ spell_fire_order st ad from h)
    split at hf
    · cases hf
      rename_i hc
      simp only [Bool.and_eq_true] at hc
      exact hc.1.1.1
    · cases hf
  | ability t =>
    obtain ⟨u, -, hf⟩ :=
      List.mem_filterMap.mp (show b ∈ ability_fire_order st ad from h)
    split at hf
    · cases hf
    · split at hf
      · cases hf
        rename_i hc
        simp only [Bool.and_eq_true] at hc
        exact hc.1
      · cases hf
  | wand s =>
    obtain ⟨i, -, hf⟩ :=
      List.mem_filterMap.mp (show b ∈ wand_fire_order st ad from h)
    split at hf
    · cases hf
      rename_i hc
      simp only [Bool.and_eq_true] at hc
      exact hc.1.1
    · cases hf
  | misc s =>
    obtain ⟨i, -, hf⟩ :=
      List.mem_filterMap.mp (show b ∈ misc_fire_order st ad from h)
    split at hf
    · cases hf
      rename_i hc
      simp only [Bool.and_eq_true] at hc
      exact hc.1.1
    · cases hf
  | artefactEvoke s =>
    obtain ⟨i, -, hf⟩ :=
      List.mem_filterMap.mp (show b ∈ artefact_fire_order st ad from h)
    split at hf
    · cases hf
      rename_i hc
      simp only [Bool.and_eq_true] at hc
      exact hc.1
    · cases hf

/-- Fire orders are kind-homogeneous: an element of a's fire order has
    the same fire order as a itself (fumble actions inherit the ammo
    enumeration, whose elements are ammo actions). -/
theorem fire_order_kind_homog (st : GameState) (ad : Bool) (a b : Action)
    (h : b ∈ get_fire_order st a ad) :
    get_fire_order st b ad = get_fire_order st a ad := by
  cases a with
  | base => simp [get_fire_order] at h
  | ammo s =>
    obtain ⟨i, hb⟩ := mem_ammo_fire_order_shape st ad b h
    subst hb; rfl
  | fumble s =>
    obtain ⟨i, hb⟩ := mem_ammo_fire_order_shape st ad b h
    subst hb; rfl
  | spell s =>
    obtain ⟨i, hb⟩ := mem_spell_fire_order_shape st ad b h
    subst hb; rfl
  | ability t =>
    obtain ⟨i, hb⟩ := mem_ability_fire_order_shape st ad b h
    subst hb; rfl
  | wand s =>
    obtain ⟨i, hb⟩ := mem_wand_fire_order_shape st ad b h
    subst hb; rfl
  | misc s =>
    obtain ⟨i, hb⟩ := mem_misc_fire_order_shape st ad b h
    subst hb; rfl
  | artefactEvoke s =>
    obtain ⟨i, hb⟩ := mem_artefact_fire_order_shape st ad b h
    subst hb; rfl

/-- Membership transfer from the direction-adjusted order to the base
    fire order. -/
theorem mem_of_mem_fire_order_dir (st : GameState) (a b : Action)
    (dir : Int) (ad : Bool) (h : b ∈ fire_order_dir st a dir ad) :
    b ∈ get_fire_order st a ad := by
  unfold fire_order_dir at h
  split at h
  · exact List.mem_reverse.mp h
  · exact h

/-- Successor behaviour of find_next (claim C6), over the direction
    adjusted fire order of the receiving action's kind: when the action
    occurs in the order at (first) position i, the result is the order's
    next element, wrapping to the head when looping and none at the
    boundary when not; when the action does not occur in a nonempty
    order, the result is the order's first element. -/
theorem find_next_cases (st : GameState) (a : Action) (dir : Int)
    (ad loop : Bool) :
    (∀ i, lookupIdx a (fire_order_dir st a dir ad) = some i →
      (i + 1 < (fire_order_dir st a dir ad).length →
        find_next st a dir ad loop
          = (fire_order_dir st a dir ad).get? (i + 1))
      ∧ (i + 1 = (fire_order_dir st a dir ad).length →
          find_next st a dir ad loop
            = if loop then (fire_order_dir st a dir ad).get? 0 else none))
    ∧ (a ∉ fire_order_dir st a dir ad →
        fire_order_dir st a dir ad ≠ [] →
        find_next st a dir ad loop
          = (fire_order_dir st a dir ad).get? 0) := by
  constructor
  · intro i hi
    have hmem : a ∈ fire_order_dir st a dir ad := mem_of_lookupIdx a _ i hi
    have hval : is_valid st a = true :=
      valid_of_mem_fire_order st ad a a (mem_of_mem_fire_order_dir st a a dir ad hmem)
    have hne : (fire_order_dir st a dir ad).isEmpty = false := by
      cases ho : fire_order_dir st a dir ad with
      | nil => rw [ho] at hmem; cases hmem
      | cons x r => rfl
    constructor
    · intro hlt
      unfold find_next
      rw [hne]
      simp only [Bool.false_eq_true, if_false, hval]
      rw [if_neg (by simp), hi]
      simp only
      rw [if_neg, Nat.mod_eq_of_lt hlt]
      simp only [Bool.and_eq_true, Bool.not_eq_true', decide_eq_true_eq]
      intro hcon
      omega
    · intro heq
      unfold find_next
      rw [hne]
      simp only [Bool.false_eq_true, if_false, hval]
      rw [if_neg (by simp), hi]
      simp only
      cases loop with
      | true =>
        rw [if_neg (by simp), if_pos rfl, heq, Nat.mod_self]
      | false =>
        rw [if_pos (by simp; omega), if_neg (by simp)]
  · intro hnm hne
    have hni : lookupIdx a (fire_order_dir st a dir ad) = none :=
      (lookupIdx_eq_none_iff a _).mpr hnm
    have hne2 : (fire_order_dir st a dir ad).isEmpty = false := by
      cases ho : fire_order_dir st a dir ad with
      | nil => exact absurd ho hne
      | cons x r => rfl
    unfold find_next
    rw [hne2]
    simp only [Bool.false_eq_true, if_false]
    by_cases hv : is_valid st a = false
    · rw [if_pos hv]
    · rw [if_neg hv, hni]

/-- Witness for the successor behaviour: with stone stacks in slots 3
    and 5, the ammo action at slot 3 sits at position 0 of the ammo
    fire order and its forward successor is the ammo action at
    slot 5. -/
theorem find_next_cases_witness :
    lookupIdx (Action.ammo 3)
        (fire_order_dir twoStonesSt (Action.ammo 3) 1 true) = some 0
    ∧ (0 + 1 < (fire_order_dir twoStonesSt (Action.ammo 3) 1 true).length)
    ∧ find_next twoStonesSt (Action.ammo 3) 1 true true
        = (fire_order_dir twoStonesSt (Action.ammo 3) 1 true).get? (0 + 1) :=
  ⟨by decide, by decide,
   (((find_next_cases twoStonesSt (Action.ammo 3) 1 true true).1 0
      (by decide)).1 (by decide))⟩

/-- Forward step formula of find_next with loop = true on an order o
    that is the receiving action's own fire order: from first position
    i the result is the element at (i + 1) mod length. -/
theorem find_next_loop_step (st : GameState) (ad : Bool) (o : List Action)
    (b : Action) (i : Nat)
    (ho : get_fire_order st b ad = o)
    (hval : is_valid st b = true)
    (hi : lookupIdx b o = some i) :
    find_next st b 1 ad true = o.get? ((i + 1) % o.length) := by
  have hdir : fire_order_dir st b 1 ad = o := by
    unfold fire_order_dir
    rw [if_neg (by omega), ho]
  have hne : o.isEmpty = false := by
    cases o with
    | nil => cases hi
    | cons x r => rfl
  unfold find_next
  rw [hdir, hne]
  simp only [Bool.false_eq_true, if_false, hval]
  rw [if_neg (by simp), hi]
  simp only [Bool.not_true, Bool.false_and, Bool.false_eq_true, if_false]

/-- Iterating the forward looped step n times from position i of a
    duplicate-free, kind-homogeneous fire order lands at position
    (i + n) mod length. -/
theorem find_next_iter_aux (st : GameState) (ad : Bool) (o : List Action)
    (hhom : ∀ b ∈ o, get_fire_order st b ad = o)
    (hval : ∀ b ∈ o, is_valid st b = true)
    (hnd : o.Nodup) :
    ∀ (n i : Nat) (hi : i < o.length),
      find_next_iter st ad n (o.get ⟨i, hi⟩)
        = o.get? ((i + n) % o.length) := by
  intro n
  induction n with
  | zero =>
    intro i hi
    rw [Nat.add_zero, Nat.mod_eq_of_lt hi]
    rw [List.get?_eq_get hi]
    rfl
  | succ n ih =>
    intro i hi
    have hlen : 0 < o.length := Nat.lt_of_le_of_lt (Nat.zero_le i) hi
    have hmem : o.get ⟨i, hi⟩ ∈ o := List.get_mem o i hi
    have hstep : find_next st (o.get ⟨i, hi⟩) 1 ad true
        = o.get? ((i + 1) % o.length) :=
      find_next_loop_step st ad o _ i (hhom _ hmem) (hval _ hmem)
        (lookupIdx_get_of_nodup _ o hnd i (List.get?_eq_get hi))
    have hj : (i + 1) % o.length < o.length := Nat.mod_lt _ hlen
    have hget : o.get? ((i + 1) % o.length)
        = some (o.get ⟨(i + 1) % o.length, hj⟩) := List.get?_eq_get hj
    show (match find_next st (o.get ⟨i, hi⟩) 1 ad true with
          | some b => find_next_iter st ad n b
          | none => none)
        = o.get? ((i + (n + 1)) % o.length)
    rw [hstep, hget]
    simp only
    rw [ih ((i + 1) % o.length) hj]
    congr 1
    rw [Nat.mod_add_mod]
    congr 1
    omega

/-- Cycle period of find_next (claim C7): for an action occurring in
    its kind's (duplicate-free) fire order of size N, with the external
    state fixed, iterating find_next forward with loop = true exactly N
    times returns the starting action. -/
theorem find_next_iter_returns (st : GameState) (ad : Bool) (a : Action)
    (h1 : a ∈ get_fire_order st a ad)
    (h2 : (get_fire_order st a ad).Nodup) :
    find_next_iter st ad (get_fire_order st a ad).length a = some a := by
  obtain ⟨⟨i, hi⟩, hget⟩ := List.mem_iff_get.mp h1
  have hhom : ∀ b ∈ get_fire_order st a ad,
      get_fire_order st b ad = get_fire_order st a ad :=
    fun b hb => fire_order_kind_homog st ad a b hb
  have hval : ∀ b ∈ get_fire_order st a ad, is_valid st b = true :=
    fun b hb => valid_of_mem_fire_order st ad a b hb
  have := find_next_iter_aux st ad (get_fire_order st a ad) hhom hval h2
    (get_fire_order st a ad).length i hi
  rw [hget] at this
  rw [this]
  rw [Nat.add_mod_right, Nat.mod_eq_of_lt hi]
  rw [List.get?_eq_get hi, hget]

/-- Witness for the cycle period: with stone stacks in slots 3 and 5
    the ammo fire order has size 2, and two looped forward steps from
    the slot-3 action return to it. -/
theorem find_next_iter_returns_witness :
    (Action.ammo 3 ∈ get_fire_order twoStonesSt (Action.ammo 3) true)
    ∧ (get_fire_order twoStonesSt (Action.ammo 3) true).Nodup
    ∧ find_next_iter twoStonesSt true
        (get_fire_order twoStonesSt (Action.ammo 3) true).length
        (Action.ammo 3) = some (Action.ammo 3) :=
  ⟨by decide, by decide,
   find_next_iter_returns twoStonesSt true (Action.ammo 3)
     (by decide) (by decide)⟩

/-- The empty-quiver fallback action is structurally invalid in every
    game state. -/
theorem ammo_neg_one_invalid (st : GameState) :
    is_valid st (Action.ammo (-1)) = false := by
  cases hf : st.felid <;> simp [is_valid, ammo_valid, hf]

/-- Every representative in the cross-kind sequence is invalid,
    provided the spell sentinel is not a valid spell (is_valid_spell
    rejects SPELL_NO_SPELL in the real spell database). -/
theorem base_action_types_invalid (st : GameState)
    (hs : st.valid_spell SPELL_NO_SPELL = false) :
    ∀ rep ∈ base_action_types, is_valid st rep = false := by
  intro rep hrep
  simp only [base_action_types, List.mem_cons, List.not_mem_nil, or_false]
    at hrep
  rcases hrep with h | h | h | h | h | h <;> subst h
  · exact ammo_neg_one_invalid st
  · simp [is_valid, wand_valid]
  · simp [is_valid, misc_valid]
  · simp [is_valid, artefact_valid]
  · simp [is_valid, hs]
  · simp [is_valid, ABIL_NON_ABILITY]

/-- A pickFirst scan yields none exactly when the function yields none
    on every element. -/
theorem pickFirst_eq_none_iff (f : α → Option β) (l : List α) :
    pickFirst f l = none ↔ ∀ x ∈ l, f x = none := by
  induction l with
  | nil => simp [pickFirst]
  | cons x r ih =>
    cases hf : f x with
    | some y => simp [pickFirst, hf]
    | none => simp [pickFirst, hf, ih]

/-- A successful pickFirst scan exhibits a successful element. -/
theorem pickFirst_eq_some (f : α → Option β) (l : List α) (y : β)
    (h : pickFirst f l = some y) : ∃ x ∈ l, f x = some y := by
  induction l with
  | nil => cases h
  | cons x r ih =>
    unfold pickFirst at h
    cases hf : f x with
    | some z =>
      rw [hf] at h
      cases h
      exact ⟨x, List.mem_cons_self x r, hf⟩
    | none =>
      rw [hf] at h
      obtain ⟨z, hz, hfz⟩ := ih h
      exact ⟨z, List.mem_cons_of_mem x hz, hfz⟩

/-- The rotation used by _get_next_action_type permutes the sequence. -/
theorem rotate_perm (l : List Action) (i : Nat) :
    (l.drop i ++ l.take i).Perm l := by
  refine List.perm_append_comm.trans ?_
  rw [List.take_append_drop]

/-- Direction adjustment does not change membership in the
    representative sequence. -/
theorem mem_action_types_iff (dir : Int) (x : Action) :
    x ∈ action_types dir ↔ x ∈ base_action_types := by
  unfold action_types
  split
  · exact List.mem_reverse
  · exact Iff.rfl

/-- An invalid receiver's find_next is the head of its
    direction-adjusted fire order. -/
theorem find_next_of_invalid (st : GameState) (rep : Action) (dir : Int)
    (ad loop : Bool) (hrep : is_valid st rep = false) :
    find_next st rep dir ad loop = (fire_order_dir st rep dir ad).get? 0 := by
  unfold find_next
  cases hd : fire_order_dir st rep dir ad with
  | nil => simp
  | cons x r => simp [hrep]

/-- The direction-adjusted order is empty exactly when the fire order
    is. -/
theorem fire_order_dir_eq_nil_iff (st : GameState) (a : Action) (dir : Int)
    (ad : Bool) :
    fire_order_dir st a dir ad = [] ↔ get_fire_order st a ad = [] := by
  unfold fire_order_dir
  split
  · exact List.reverse_eq_nil_iff
  · exact Iff.rfl

/-- For an invalid representative, the rotated-scan step fails exactly
    when that kind's fire order is empty; when it succeeds the result
    is valid. -/
theorem gnat_step_invalid_rep (st : GameState) (dir : Int) (ad : Bool)
    (rep : Action) (hrep : is_valid st rep = false) :
    (gnat_step st dir ad rep = none ↔ get_fire_order st rep ad = []) := by
  unfold gnat_step
  rw [find_next_of_invalid st rep dir ad false hrep]
  cases hd : fire_order_dir st rep dir ad with
  | nil =>
    simp only [List.get?_nil]
    rw [← fire_order_dir_eq_nil_iff st rep dir ad, hd]
    simp
  | cons b r =>
    simp only [List.get?_cons_zero]
    have hbmem : b ∈ fire_order_dir st rep dir ad := by
      rw [hd]; exact List.mem_cons_self b r
    have hbval : is_valid st b = true :=
      valid_of_mem_fire_order st ad rep b
        (mem_of_mem_fire_order_dir st rep b dir ad hbmem)
    rw [hbval]
    simp only [if_true, reduceCtorEq, false_iff]
    intro hcon
    rw [← fire_order_dir_eq_nil_iff st rep dir ad] at hcon
    rw [hcon] at hd
    cases hd

/-- A successful cross-kind search result is valid. -/
theorem gnat_some_valid (st : GameState) (a : Option Action) (dir : Int)
    (ad : Bool) (n : Action)
    (h : get_next_action_type st a dir ad = some n) :
    is_valid st n = true := by
  obtain ⟨rep, -, hrep⟩ := pickFirst_eq_some _ _ _ h
  unfold gnat_step at hrep
  cases hfn : find_next st rep dir ad false with
  | none => rw [hfn] at hrep; cases hrep
  | some m =>
    rw [hfn] at hrep
    cases hv : is_valid st m with
    | false => simp [hv] at hrep
    | true =>
      simp [hv] at hrep
      rw [← hrep]
      exact hv

/-- The cross-kind search fails exactly when every kind's fire order is
    empty (under the spell-sentinel hypothesis). -/
theorem gnat_eq_none_iff (st : GameState) (a : Option Action) (dir : Int)
    (ad : Bool) (hs : st.valid_spell SPELL_NO_SPELL = false) :
    get_next_action_type st a dir ad = none
      ↔ ∀ rep ∈ base_action_types, get_fire_order st rep ad = [] := by
  unfold get_next_action_type
  rw [pickFirst_eq_none_iff]
  constructor
  · intro h rep hrep
    have hmem : rep ∈ (action_types dir).drop
          (gnat_index a (action_types dir))
        ++ (action_types dir).take (gnat_index a (action_types dir)) := by
      rw [(rotate_perm (action_types dir) _).mem_iff]
      exact (mem_action_types_iff dir rep).mpr hrep
    exact (gnat_step_invalid_rep st dir ad rep
      (base_action_types_invalid st hs rep hrep)).mp (h rep hmem)
  · intro h rep hmem
    have hbase : rep ∈ base_action_types := by
      rw [← mem_action_types_iff dir rep]
      exact ((rotate_perm (action_types dir) _).mem_iff).mp hmem
    exact (gnat_step_invalid_rep st dir ad rep
      (base_action_types_invalid st hs rep hbase)).mpr (h rep hbase)

/-- If every representative kind has an empty fire order, then so does
    every action's own fire order (the base action enumerates nothing
    and fumble actions inherit the ammo enumeration). -/
theorem all_fire_orders_empty (st : GameState) (ad : Bool)
    (hall : ∀ rep ∈ base_action_types, get_fire_order st rep ad = []) :
    ∀ a : Action, get_fire_order st a ad = [] := by
  intro a
  cases a with
  | base => rfl
  | ammo s => exact hall (.ammo (-1)) (by simp [base_action_types])
  | fumble s => exact hall (.ammo (-1)) (by simp [base_action_types])
  | spell s => exact hall (.spell SPELL_NO_SPELL) (by simp [base_action_types])
  | ability t =>
    exact hall (.ability ABIL_NON_ABILITY) (by simp [base_action_types])
  | wand s => exact hall (.wand (-1)) (by simp [base_action_types])
  | misc s => exact hall (.misc (-1)) (by simp [base_action_types])
  | artefactEvoke s =>
    exact hall (.artefactEvoke (-1)) (by simp [base_action_types])

/-- Counterexample to claim C2 as stated: with only a ziggurat figurine
    in the inventory a valid action exists (the misc action at slot 0,
    which can be force-quivered), yet next returns the invalid
    empty-quiver fallback, because the ziggurat is deliberately skipped
    by the misc fire order and every fire order is empty. -/
theorem next_claim_cex :
    is_valid zigSt (Action.misc 0) = true
    ∧ next_action zigSt Action.base 1 true = Action.ammo (-1)
    ∧ is_valid zigSt (Action.ammo (-1)) = false :=
  ⟨by decide, by decide, by decide⟩

/-- Amended claim C2: next always returns an action; the result is
    valid unless it is the empty-quiver fallback ammo(-1), and the
    fallback is returned exactly when every kind's fire order (the
    cycling enumerations, which omit some valid but force-only actions)
    is empty; cycle installs precisely the result of next. The
    spell-sentinel hypothesis reflects that is_valid_spell rejects
    SPELL_NO_SPELL in the real spell database. -/
theorem next_valid_or_fallback (st : GameState) (cur : Action) (dir : Int)
    (ad : Bool) (c : CyclerSt)
    (hs : st.valid_spell SPELL_NO_SPELL = false) :
    (is_valid st (next_action st cur dir ad) = true
      ∨ next_action st cur dir ad = Action.ammo (-1))
    ∧ (next_action st cur dir ad = Action.ammo (-1)
        ↔ ∀ rep ∈ base_action_types, get_fire_order st rep ad = [])
    ∧ (action_cycler_cycle st c dir ad).1.current
        = next_action st c.current dir ad := by
  have key : (∃ n, next_action st cur dir ad = n ∧ is_valid st n = true)
      ∨ (next_action st cur dir ad = Action.ammo (-1)
         ∧ get_next_action_type st (some cur) dir ad = none) := by
    unfold next_action
    cases hfn : find_next st cur dir ad false with
    | some n =>
      cases hv : is_valid st n with
      | true => exact Or.inl ⟨n, by simp [hv], hv⟩
      | false =>
        cases hg : get_next_action_type st (some cur) dir ad with
        | some m =>
          exact Or.inl ⟨m, by simp [hv], gnat_some_valid st _ dir ad m hg⟩
        | none => exact Or.inr ⟨by simp [hv], rfl⟩
    | none =>
      cases hg : get_next_action_type st (some cur) dir ad with
      | some m =>
        exact Or.inl ⟨m, by simp, gnat_some_valid st _ dir ad m hg⟩
      | none => exact Or.inr ⟨by simp, rfl⟩
  have hback : (∀ rep ∈ base_action_types, get_fire_order st rep ad = []) →
      next_action st cur dir ad = Action.ammo (-1) := by
    intro hall
    have hcur : get_fire_order st cur ad = [] :=
      all_fire_orders_empty st ad hall cur
    have hdir : fire_order_dir st cur dir ad = [] :=
      (fire_order_dir_eq_nil_iff st cur dir ad).mpr hcur
    have hfn : find_next st cur dir ad false = none := by
      unfold find_next
      rw [hdir]
      simp
    have hg : get_next_action_type st (some cur) dir ad = none :=
      (gnat_eq_none_iff st (some cur) dir ad hs).mpr hall
    unfold next_action
    rw [hfn]
    show (get_next_action_type st (some cur) dir ad).getD (.ammo (-1))
        = Action.ammo (-1)
    rw [hg]
    rfl
  refine ⟨?_, ⟨?_, hback⟩, rfl⟩
  · rcases key with ⟨n, he, hv⟩ | ⟨he, -⟩
    · rw [he]; exact Or.inl hv
    · exact Or.inr he
  · intro hfb
    rcases key with ⟨n, he, hv⟩ | ⟨-, hg⟩
    · have hn : n = Action.ammo (-1) := by rw [← he, hfb]
      rw [hn, ammo_neg_one_invalid st] at hv
      cases hv
    · exact (gnat_eq_none_iff st (some cur) dir ad hs).mp hg

/-- Witness for the amended cycling guarantee: with stone stacks in
    slots 3 and 5 the successor of the slot-3 ammo action is valid. -/
theorem next_valid_or_fallback_witness :
    (twoStonesSt.valid_spell SPELL_NO_SPELL = false)
    ∧ (is_valid twoStonesSt
          (next_action twoStonesSt (Action.ammo 3) 1 true) = true
       ∨ next_action twoStonesSt (Action.ammo 3) 1 true
          = Action.ammo (-1)) :=
  ⟨by decide,
   (next_valid_or_fallback twoStonesSt (Action.ammo 3) 1 true cycSlot3
     (by decide)).1⟩

/-- Counterexample to claim C4 as stated: starting from a valid ammo
    action at slot 0, one cycle-forward step whose trigger consumes the
    slot-0 stack (moving the cycler to slot 1), then a cancel. The run
    ends in a cancellation, but the cycler keeps the slot-1 action
    instead of being restored, because the restore branch additionally
    requires the initial action to still be valid at loop exit
    (quiver.cc lines 1832-1833). -/
theorem target_restore_claim_cex :
    ((target_loop cexSt0 cycSlot0 cexEvents).map (fun out => out.what)
       = some CmdResult.noCmd)
    ∧ ((action_cycler_target cexSt0 cycSlot0 cexEvents).map
         (fun x => x.current) = some (Action.ammo 1))
    ∧ cycSlot0.current = Action.ammo 0
    ∧ Action.ammo 1 ≠ Action.ammo 0 :=
  ⟨by decide, by decide, by decide, by decide⟩

/-- Amended claim C4: whenever the targeting loop terminates with a
    cancellation (or with the resolved action having become invalid in
    its final iteration), and the action that was current before the
    loop is still valid in the post-loop game state, the cycler's
    current action after the loop equals that pre-loop action,
    regardless of the cycle/select steps inside the loop. (When the
    pre-loop action is invalid at entry the loop exits immediately,
    leaving it in place; when it became invalid during the loop the
    cycler instead keeps the last selected action.) -/
theorem target_restores_when_initial_valid (st : GameState) (c : CyclerSt)
    (evs : List TargetEvent) (out : TargetExit)
    (hrun : target_loop st c evs = some out)
    (hend : out.what = CmdResult.noCmd ∨ out.forceRestore = true)
    (hval : is_valid out.finalSt c.current = true) :
    (action_cycler_target st c evs).map (fun x => x.current)
      = some c.current := by
  unfold action_cycler_target
  rw [hrun, Option.map_some', Option.map_some']
  rw [if_pos ⟨hend, hval⟩]
  rfl

/-- Witness for the amended restore property: a still-valid initial
    action and an immediate cancel restore the initial action. -/
theorem target_restores_when_initial_valid_witness :
    (is_valid twoStonesSt cycSlot3.current = true)
    ∧ (action_cycler_target twoStonesSt cycSlot3
        [⟨CmdResult.noCmd, twoStonesSt, none⟩]).map (fun x => x.current)
      = some cycSlot3.current :=
  ⟨by decide,
   target_restores_when_initial_valid twoStonesSt cycSlot3
     [⟨CmdResult.noCmd, twoStonesSt, none⟩]
     ⟨twoStonesSt, cycSlot3, CmdResult.noCmd, false⟩ rfl (Or.inl rfl)
     (by decide)⟩

/-- The packed candidate list of _get_item_fire_order is the image of
    the specification-side candidate pairs under the packing key. -/
theorem item_fire_order_packed (st : GameState) (ign : Bool)
    (launcher : Option Item) (manual : Bool) :
    (fire_order_pairs st ign launcher manual).map pack_rank_slot
      = ((List.range ENDOFPACK).drop
          (if ign then 0 else st.fire_items_start)).filterMap
        (fun i =>
          (fire_order_entry st ign launcher manual i).map
            (fun r => r * 65536 + i % 65536)) := by
  unfold fire_order_pairs
  rw [List.map_filterMap]
  apply List.filterMap_congr
  intro i hi
  cases fire_order_entry st ign launcher manual i <;> rfl

/-- Slot components of candidate pairs lie below 2^16 (they are
    inventory indices below ENDOFPACK). -/
theorem fire_order_pairs_snd_lt (st : GameState) (ign : Bool)
    (launcher : Option Item) (manual : Bool) (p : Nat × Nat)
    (hp : p ∈ fire_order_pairs st ign launcher manual) : p.2 < 65536 := by
  unfold fire_order_pairs at hp
  obtain ⟨i, hi, hf⟩ := List.mem_filterMap.mp hp
  have hi52 : i < ENDOFPACK := List.mem_range.mp (List.mem_of_mem_drop hi)
  cases he : fire_order_entry st ign launcher manual i with
  | none => rw [he] at hf; cases hf
  | some r =>
    rw [he] at hf
    cases hf
    show i < 65536
    unfold ENDOFPACK at hi52
    omega

/-- The packing key reflects and preserves the lexicographic candidate
    order on pairs whose slot component is below 2^16. -/
theorem pack_le_iff (p q : Nat × Nat) (hp : p.2 < 65536)
    (hq : q.2 < 65536) :
    lexLe p q ↔ pack_rank_slot p ≤ pack_rank_slot q := by
  unfold lexLe pack_rank_slot
  rw [Nat.mod_eq_of_lt hp, Nat.mod_eq_of_lt hq]
  constructor <;> intro h <;> omega

/-- Sorting the packed keys coincides with packing the
    lexicographically sorted pairs. -/
theorem sort_pack_commute (P : List (Nat × Nat))
    (hP : ∀ p ∈ P, p.2 < 65536) :
    List.insertionSort (· ≤ ·) (P.map pack_rank_slot)
      = (List.insertionSort lexLe P).map pack_rank_slot := by
  have hperm : (List.insertionSort (· ≤ ·) (P.map pack_rank_slot)).Perm
      ((List.insertionSort lexLe P).map pack_rank_slot) :=
    (List.perm_insertionSort _ _).trans
      (((List.perm_insertionSort lexLe P).map pack_rank_slot).symm)
  have hmem : ∀ p ∈ List.insertionSort lexLe P, p.2 < 65536 := fun p hp =>
    hP p ((List.perm_insertionSort lexLe P).mem_iff.mp hp)
  have hsorted : List.Sorted lexLe (List.insertionSort lexLe P) :=
    List.sorted_insertionSort lexLe P
  refine List.eq_of_perm_of_sorted hperm
    (List.sorted_insertionSort (· ≤ ·) (P.map pack_rank_slot)) ?_
  refine List.pairwise_map.mpr ?_
  exact List.Pairwise.imp_of_mem
    (fun ha hb hab =>
      (pack_le_iff _ _ (hmem _ ha) (hmem _ hb)).mp hab) hsorted

/-- General sorted form of _get_item_fire_order: the produced slot list
    is exactly the candidate (filter rank, slot) pairs sorted
    lexicographically ascending, projected to slots. -/
theorem get_item_fire_order_eq_sorted_pairs (st : GameState) (ign : Bool)
    (launcher : Option Item) (manual : Bool) :
    get_item_fire_order st ign launcher manual
      = (List.insertionSort lexLe
          (fire_order_pairs st ign launcher manual)).map Prod.snd := by
  unfold get_item_fire_order
  rw [← item_fire_order_packed st ign launcher manual]
  rw [sort_pack_commute (fire_order_pairs st ign launcher manual)
    (fire_order_pairs_snd_lt st ign launcher manual)]
  rw [List.map_map]
  apply List.map_congr_left
  intro p hp
  have hmem : p ∈ fire_order_pairs st ign launcher manual :=
    (List.perm_insertionSort lexLe _).mem_iff.mp hp
  have hlt := fire_order_pairs_snd_lt st ign launcher manual p hmem
  show pack_rank_slot p % 65536 = p.2
  unfold pack_rank_slot
  omega

/-- Sorted ammo fire order (claim C5): the item fire order lists the
    candidate slots sorted ascending by (first matching filter index,
    slot index) lexicographically, ties within a filter rank broken by
    slot index; in the bow-and-two-arrow-stacks scenario the ammo fire
    order enumerates slots 3 and 5 in that order. -/
theorem item_fire_order_sorted :
    (∀ (st : GameState) (ign : Bool) (launcher : Option Item)
        (manual : Bool),
      get_item_fire_order st ign launcher manual
        = (List.insertionSort lexLe
            (fire_order_pairs st ign launcher manual)).map Prod.snd)
    ∧ ammo_fire_order bowSt true = [Action.ammo 3, Action.ammo 5] :=
  ⟨get_item_fire_order_eq_sorted_pairs, by decide⟩

end Quiver
